import Mathlib

/-!
Verification of the core of `backend/routers/jira.py`: the plain-text → ADF
document compiler (`_adf_inline`, `adf_from_plain`), the bulk-response
reconciler (`_parse_bulk_index_map`), the row filtering / field building /
50-row cap of `jira_bulk_create`, and the link fan-out
(`_split_issue_keys`, `_create_issue_link`).

Python strings are modelled as `List Char`.  The `Row` model
(`backend/models.py`) declares every field as `str` with default `""`,
and every use in the router treats `None` and `""` identically
(`x or ""`, truthiness tests), so fields are plain `List Char` here.
-/

namespace JiraCsv

/-! ### Python string primitives -/

/-- Characters stripped by Python `str.strip()` / split by `str.split()`:
Unicode whitespace plus the ASCII separators `\x1c`–`\x1f`. -/
def pyIsSpace (c : Char) : Bool :=
  c = ' ' || c = '\t' || c = '\n' || c = '\r' || c = '\u000b' || c = '\u000c' ||
  c = '\u001c' || c = '\u001d' || c = '\u001e' || c = '\u001f' || c = '\u0085' ||
  c = '\u00a0' || c = '\u1680' || (decide ('\u2000' ≤ c) && decide (c ≤ '\u200a')) ||
  c = '\u2028' || c = '\u2029' || c = '\u202f' || c = '\u205f' || c = '\u3000'

/-- Python `s.lstrip()`. -/
def pyLStrip (s : List Char) : List Char := s.dropWhile pyIsSpace

/-- Python `s.rstrip()` (no argument: strips trailing whitespace). -/
def pyRStrip (s : List Char) : List Char := (s.reverse.dropWhile pyIsSpace).reverse

/-- Python `s.strip()`. -/
def pyStrip (s : List Char) : List Char := pyRStrip (pyLStrip s)

/-- Python `s.rstrip("\n")`: strips only trailing newline characters
(line 154 of `jira.py`: `text = (text or "").rstrip("\n")`). -/
def rstripNl (s : List Char) : List Char :=
  (s.reverse.dropWhile (fun c => c = '\n')).reverse

/-- Line-boundary characters of Python `str.splitlines()`. -/
def isLineBreak (c : Char) : Bool :=
  c = '\n' || c = '\r' || c = '\u000b' || c = '\u000c' ||
  c = '\u001c' || c = '\u001d' || c = '\u001e' || c = '\u0085' ||
  c = '\u2028' || c = '\u2029'

/-- Worker for `splitlines`; `cur` is the current line, reversed. -/
def splitlinesAux (cur : List Char) : List Char → List (List Char)
  | [] => if cur.isEmpty then [] else [cur.reverse]
  | '\r' :: '\n' :: rest => cur.reverse :: splitlinesAux [] rest
  | c :: rest =>
      if isLineBreak c then cur.reverse :: splitlinesAux [] rest
      else splitlinesAux (c :: cur) rest

/-- Python `str.splitlines()` (keepends = False). -/
def splitlines (s : List Char) : List (List Char) := splitlinesAux [] s

/-- Python `s.split()`: split on whitespace runs, dropping empty tokens;
`cur` is the current token, reversed. -/
def pySplitWsAux (cur : List Char) : List Char → List (List Char)
  | [] => if cur.isEmpty then [] else [cur.reverse]
  | c :: rest =>
      if pyIsSpace c then
        if cur.isEmpty then pySplitWsAux [] rest
        else cur.reverse :: pySplitWsAux [] rest
      else pySplitWsAux (c :: cur) rest

/-- Python `s.split()` with no argument. -/
def pySplitWs (s : List Char) : List (List Char) := pySplitWsAux [] s

/-! ### ADF inline parsing (`_adf_inline`, lines 120–142)

`_BOLD_RE = re.compile(r"\*(.+?)\*")` and `finditer`: scan left to right;
a match starting at a `*` captures the shortest non-empty run of
non-newline characters up to the next `*`. -/

/-- One ADF text node: `{"type": "text", "text": ..., "marks": [strong]?}`.
`strong = true` iff the node carries the strong mark. -/
structure Inline where
  text : List Char
  strong : Bool
deriving Repr, DecidableEq

/-- Non-greedy search for the body of `\*(.+?)\*` given the characters
after the opening `*`: returns the shortest non-empty newline-free prefix
followed by a `*`, together with the characters after that closing `*`. -/
def findContent : List Char → Option (List Char × List Char)
  | [] => none
  | [_] => none
  | c :: d :: rest =>
      if c = '\n' then none
      else if d = '*' then some ([c], rest)
      else
        match findContent (d :: rest) with
        | some (p, r) => some (c :: p, r)
        | none => none

/-- Prepend a literal character to a run list, extending a leading plain
run when there is one (the regex scan emits each maximal gap between
matches as a single plain node). -/
def plainCons (c : Char) : List Inline → List Inline
  | ⟨t, false⟩ :: rest => ⟨c :: t, false⟩ :: rest
  | l => ⟨[c], false⟩ :: l

/-- The `finditer` scan.  `fuel` only bounds recursion depth: every call
consumes at least one character per unit of fuel, so `fuel = s.length`
suffices, and the zero-fuel branch is never reached from `adf_inline`. -/
def adfInlineGo : Nat → List Char → List Inline
  | 0, _ => []
  | _ + 1, [] => []
  | fuel + 1, c :: rest =>
      if c = '*' then
        match findContent rest with
        | some (content, rest2) => ⟨content, true⟩ :: adfInlineGo fuel rest2
        | none => plainCons c (adfInlineGo fuel rest)
      else plainCons c (adfInlineGo fuel rest)

/-- `_adf_inline`: inline `*bold*` to text nodes with strong marks; the
final filter mirrors line 142 (`n.get("text") != ""`). -/
def adf_inline (text : List Char) : List Inline :=
  (adfInlineGo text.length text).filter (fun n => ¬ n.text.isEmpty)

/-! ### ADF blocks (`adf_from_plain`, lines 145–233)

A `listItem` always holds exactly one paragraph, so a list node is
represented by the list of its items' inline contents. -/

/-- One ADF block node. -/
inductive Block where
  | paragraph (content : List Inline)
  | bulletList (items : List (List Inline))
  | orderedList (items : List (List Inline))
deriving Repr, DecidableEq

/-- The ADF document `{"type": "doc", "version": 1, "content": ...}`. -/
structure Doc where
  content : List Block
deriving Repr, DecidableEq

/-- The two kinds of open list run (`current_list_type`). -/
inductive ListKind where
  | bullet
  | ordered
deriving Repr, DecidableEq

/-- Loop state of `adf_from_plain`: the open list run
(`current_list_type`, `list_items`) and the emitted blocks (`content`). -/
structure CompState where
  listType : Option ListKind
  items : List (List Char)
  content : List Block
deriving Repr, DecidableEq

/-- `flush_list` (lines 166–192): emit the open run as one list node —
only when a run is open and has buffered items — and reset the buffers. -/
def flush_list (st : CompState) : CompState :=
  match st.listType, st.items with
  | some k, item0 :: restItems =>
      let node :=
        match k with
        | .bullet => Block.bulletList ((item0 :: restItems).map (fun i => adf_inline i))
        | .ordered => Block.orderedList ((item0 :: restItems).map (fun i => adf_inline i))
      ⟨none, [], st.content ++ [node]⟩
  | _, _ => ⟨none, [], st.content⟩

/-- One iteration of the `for raw in lines` loop (lines 200–229). -/
def adfStep (st : CompState) (raw : List Char) : CompState :=
  let line := pyRStrip raw
  if (pyStrip line).isEmpty then
    let st := flush_list st
    { st with content := st.content ++ [Block.paragraph []] }
  else if line.take 2 = ['-', ' '] then
    let item := pyStrip (line.drop 2)
    let st := if st.listType = none ∨ st.listType = some .bullet then st else flush_list st
    { st with listType := some .bullet, items := st.items ++ [item] }
  else if line.take 2 = ['#', ' '] then
    let item := pyStrip (line.drop 2)
    let st := if st.listType = none ∨ st.listType = some .ordered then st else flush_list st
    { st with listType := some .ordered, items := st.items ++ [item] }
  else
    let st := flush_list st
    { st with content := st.content ++ [Block.paragraph (adf_inline line)] }

/-- `adf_from_plain` (lines 145–233): trailing newlines stripped, then a
whitespace-only text yields the empty document, otherwise the line loop
runs and the last open run is flushed. -/
def adf_from_plain (text : List Char) : Doc :=
  let text := rstripNl text
  if (pyStrip text).isEmpty then ⟨[]⟩
  else
    let lines := splitlines text
    let final := flush_list (lines.foldl adfStep ⟨none, [], []⟩)
    ⟨final.content⟩

/-! ### Bulk-response reconciliation (`_parse_bulk_index_map`, lines 241–255)

The response is modelled by the two fields the code reads: `issues`, a
list of created items each reduced to its `"key"` (`[]` when the key is
missing, null or empty — all treated alike by `if key:`), and `errors`,
each entry reduced to its `failedElementNumber` when the entry is a dict
carrying an `int` there (`none` covers non-dict entries and missing or
non-integer values, both filtered out by lines 244–245).  `none` on a
whole field models a missing or null field (`resp_json.get(...) or []`). -/

structure BulkResp where
  issues : Option (List (List Char))
  errors : Option (List (Option Int))
deriving Repr, DecidableEq

/-- Lines 244–245: the extracted integer failure positions. -/
def failedNums (errors : List (Option Int)) : List Int :=
  errors.filterMap id

/-- Lines 246–247: if any extracted position is `>= n_updates`, treat the
whole list as 1-based and subtract 1 from every entry. -/
def normalizeFailed (nums : List Int) (n_updates : Nat) : List Int :=
  let one_based := nums.any (fun n => decide ((n_updates : Int) ≤ n))
  nums.map (fun n => if one_based then n - 1 else n)

/-- Line 249: `[i for i in range(n_updates) if i not in failed]`. -/
def successIndices (n_updates : Nat) (failed : List Int) : List Nat :=
  (List.range n_updates).filter (fun i => decide (¬ (i : Int) ∈ failed))

/-- `_parse_bulk_index_map` (lines 241–255).  The Python dict, filled with
strictly increasing keys, is modelled as the association list in insertion
order. -/
def parse_bulk_index_map (resp : BulkResp) (n_updates : Nat) : List (Nat × List Char) :=
  let issues := resp.issues.getD []
  let errors := resp.errors.getD []
  let failed := normalizeFailed (failedNums errors) n_updates
  ((successIndices n_updates failed).zip issues).filterMap
    (fun p => if p.2.isEmpty then none else some p)

/-- Modelled on the spec's words for claim C3, to be compared with
`parse_bulk_index_map`: the surviving positions are "`{0,...,n-1}` minus
the normalized failure positions, in ascending order", here literally an
ordered set difference. -/
def specSurvivors (n : Nat) (failed : List Int) : List Nat :=
  ((Finset.range n).filter (fun i : Nat => ((i : Int) ∉ failed))).sort (· ≤ ·)

/-- Modelled on the spec's words for claim C3: zip the surviving
positions against the ordered created items, stopping at the shorter
sequence, and keep the pairs with a non-empty key. -/
def reconcileSpec (resp : BulkResp) (n : Nat) : List (Nat × List Char) :=
  let failed := normalizeFailed (failedNums (resp.errors.getD [])) n
  ((specSurvivors n failed).zip (resp.issues.getD [])).filterMap
    (fun p => if p.2.isEmpty then none else some p)

/-! ### Rows, field building and the bulk-create pre-checks
(`jira_bulk_create`, lines 381–457)

`Row` is `backend/models.py`: eight string fields, all defaulting to the
empty string. -/

structure Row where
  summary : List Char := []
  issue_type : List Char := []
  description : List Char := []
  link_relates : List Char := []
  assignee : List Char := []
  labels : List Char := []
  nsoc_team : List Char := []
  severity : List Char := []
deriving Repr, DecidableEq

/-- The configuration values the route reads. -/
structure Config where
  jira_project_key : List Char
  cf_nsoc_team : List Char
  cf_severity : List Char
  jira_link_type_test : List Char
  jira_link_type_bug : List Char
deriving Repr, DecidableEq

/-- Line 392: `any([r.summary, r.issue_type, r.description, r.link_relates,
r.assignee, r.labels, r.nsoc_team, r.severity])`. -/
def rowNonEmpty (r : Row) : Bool :=
  !r.summary.isEmpty || !r.issue_type.isEmpty || !r.description.isEmpty ||
  !r.link_relates.isEmpty || !r.assignee.isEmpty || !r.labels.isEmpty ||
  !r.nsoc_team.isEmpty || !r.severity.isEmpty

/-- The `fields` dict built per row (lines 417–432). -/
structure IssueFields where
  project_key : List Char
  issuetype : List Char
  summary : List Char
  description : Doc
  labels : List (List Char)
  assignee : Option (List Char)
  nsoc_team : Option (List Char)
  severity : Option (List Char)
deriving Repr, DecidableEq

/-- One iteration of the field-build loop (lines 408–435): `none` when
the row is skipped for lacking a non-empty summary after trimming. -/
def rowFields (cfg : Config) (issue_type : List Char) (r : Row) : Option IssueFields :=
  let summary := pyStrip r.summary
  if summary.isEmpty then none
  else
    some {
      project_key := cfg.jira_project_key
      issuetype := issue_type
      summary := summary
      description := adf_from_plain r.description
      labels := pySplitWs r.labels
      assignee := if (pyStrip r.assignee).isEmpty then none else some (pyStrip r.assignee)
      nsoc_team :=
        if !cfg.cf_nsoc_team.isEmpty && !(pyStrip r.nsoc_team).isEmpty
        then some (pyStrip r.nsoc_team) else none
      severity :=
        if !cfg.cf_severity.isEmpty && !(pyStrip r.severity).isEmpty
        then some (pyStrip r.severity) else none }

/-- The field-build loop: `issue_updates` and `kept_rows` (lines 405–435). -/
def buildUpdates (cfg : Config) (issue_type : List Char) :
    List Row → List IssueFields × List Row
  | [] => ([], [])
  | r :: rest =>
      match rowFields cfg issue_type r with
      | none => buildUpdates cfg issue_type rest
      | some f =>
          let rec_rest := buildUpdates cfg issue_type rest
          (f :: rec_rest.1, r :: rec_rest.2)

/-- Outcome of `jira_bulk_create` up to the remote bulk call: either one
of the four client errors raised before anything is submitted, or the
submission payload.  (The OAuth token fetch and the HTTP call itself are
external collaborators.) -/
inductive BulkPre where
  | badType
  | noRows
  | overCap
  | noValid
  | submit (issue_updates : List IssueFields) (kept_rows : List Row)
deriving Repr, DecidableEq

/-- `jira_bulk_create` (lines 381–438), up to the remote bulk call:
issue-type validation, the all-fields-empty row filter (lines 390–393),
the empty-batch check, the 50-row cap (line 396), and the field build
with its missing-summary check. -/
def jira_bulk_create (cfg : Config) (payload : List Row) (issue_type : List Char) :
    BulkPre :=
  if ¬ (issue_type = "Test".data ∨ issue_type = "Bug".data) then .badType
  else
    let rows := payload.filter rowNonEmpty
    if rows.isEmpty then .noRows
    else if 50 < rows.length then .overCap
    else
      let built := buildUpdates cfg issue_type rows
      if built.1.isEmpty then .noValid
      else .submit built.1 built.2

/-- The kept-row count in the sense of claim C1: the number of rows
surviving both the all-fields-empty filter and the empty-summary
field-build drop. -/
def keptRowCount (payload : List Row) : Nat :=
  ((payload.filter rowNonEmpty).filter (fun r => !(pyStrip r.summary).isEmpty)).length

/-! ### Link fan-out (`_split_issue_keys`, `_create_issue_link`,
lines 236–272 and 459–467) -/

/-- `_split_issue_keys` (lines 236–239): replace commas by spaces, split
on whitespace.  (The per-token `strip` of line 239 is a no-op on
whitespace-split tokens.) -/
def split_issue_keys (s : List Char) : List (List Char) :=
  if s.isEmpty then []
  else pySplitWs (s.map (fun c => if c = ',' then ' ' else c))

/-- The remote's answer to one link-creation POST. -/
structure HttpResp where
  status : Nat
  text : List Char
deriving Repr, DecidableEq

/-- Result dict of `_create_issue_link` (lines 270–272); the success dict
carries no `"error"` key, modelled as `error := none`. -/
structure LinkResult where
  ok : Bool
  status : Nat
  error : Option (List Char)
  from_key : List Char
  to_key : List Char
  link_type : List Char
deriving Repr, DecidableEq

/-- `_create_issue_link` (lines 257–272); the HTTP POST is the external
collaborator `send`.  A status `>= 400` yields a structured failure
result — the function returns in both branches, it never raises. -/
def create_issue_link (send : List Char → List Char → HttpResp)
    (link_type from_key to_key : List Char) : LinkResult :=
  let r := send from_key to_key
  if 400 ≤ r.status then
    { ok := false, status := r.status, error := some r.text,
      from_key := from_key, to_key := to_key, link_type := link_type }
  else
    { ok := true, status := r.status, error := none,
      from_key := from_key, to_key := to_key, link_type := link_type }

/-- The `for idx, row in enumerate(kept_rows)` link loop (lines 462–467),
with `idx` made explicit; collects the result of every link call made. -/
def linkFanoutAux (send : List Char → List Char → HttpResp)
    (link_type : List Char) (idx_to_key : List (Nat × List Char)) :
    Nat → List Row → List LinkResult
  | _, [] => []
  | idx, row :: rest =>
      (match List.lookup idx idx_to_key with
       | none => []
       | some key =>
           if key.isEmpty then []
           else (split_issue_keys row.link_relates).map
             (fun to_key => create_issue_link send link_type key to_key))
      ++ linkFanoutAux send link_type idx_to_key (idx + 1) rest

/-- The whole link fan-out of lines 459–467. -/
def linkFanout (send : List Char → List Char → HttpResp)
    (link_type : List Char) (kept_rows : List Row)
    (idx_to_key : List (Nat × List Char)) : List LinkResult :=
  linkFanoutAux send link_type idx_to_key 0 kept_rows

/-! ### Concrete instances used by counterexamples and witnesses -/

/-- The default configuration of `backend/config.py`. -/
def cfg0 : Config :=
  { jira_project_key := "NSOC".data
    cf_nsoc_team := "customfield_10337".data
    cf_severity := "customfield_10300".data
    jira_link_type_test := "Relates".data
    jira_link_type_bug := "Problem/Incident".data }

/-- A row whose only non-empty field is `labels`: it survives the
all-fields-empty filter but is dropped at field-build time. -/
def labelsOnlyRow : Row := { labels := ['x'] }

/-- 51 copies of `labelsOnlyRow`: non-empty-row count 51, kept-row
count 0. -/
def rows51 : List Row := List.replicate 51 labelsOnlyRow

/-- Render one inline run back to source markup: a strong run regains its
`*` delimiters.  Joining the rendered runs of `adf_inline s` recovers `s`
exactly (theorem for claim C5). -/
def renderInline (r : Inline) : List Char :=
  if r.strong then '*' :: (r.text ++ ['*']) else r.text

/-- The list-node invariant of claim C6: a paragraph is always fine, a
bullet or ordered list must have at least one item. -/
def listOk (b : Block) : Bool :=
  match b with
  | .paragraph _ => true
  | .bulletList items => !items.isEmpty
  | .orderedList items => !items.isEmpty

/-! ### Reconciler: normalization (C2) and null tolerance (C9) -/

lemma normalizeFailed_of_one_based (nums : List Int) (n : Nat)
    (h : ∃ m ∈ nums, (n : Int) ≤ m) :
    normalizeFailed nums n = nums.map (fun m => m - 1) := by
  unfold normalizeFailed
  have hany : (nums.any (fun m => decide ((n : Int) ≤ m))) = true := by
    rcases h with ⟨m, hm, hle⟩
    exact List.any_eq_true.mpr ⟨m, hm, decide_eq_true hle⟩
  simp only [hany, if_true]

lemma normalizeFailed_of_zero_based (nums : List Int) (n : Nat)
    (h : ∀ m ∈ nums, m < (n : Int)) :
    normalizeFailed nums n = nums := by
  unfold normalizeFailed
  have hany : (nums.any (fun m => decide ((n : Int) ≤ m))) = false := by
    simp only [List.any_eq_false, decide_eq_true_eq]
    intro m hm
    exact not_le.mpr (h m hm)
  simp only [hany, Bool.false_eq_true, if_false, List.map_id']

/-- C2: the reconciler subtracts 1 from every extracted failure position
exactly when at least one of them is `>= requestCount`, and otherwise
uses every entry unchanged — an all-or-nothing decision per call; and the
spec's own example: `reconcile({issues:[{key:"A-1"}],
errors:[{failedElementNumber:3}]}, 3)` maps position 0 to `"A-1"`. -/
theorem C2_normalization_all_or_nothing :
    (∀ (nums : List Int) (n : Nat), (∃ m ∈ nums, (n : Int) ≤ m) →
        normalizeFailed nums n = nums.map (fun m => m - 1)) ∧
    (∀ (nums : List Int) (n : Nat), (∀ m ∈ nums, m < (n : Int)) →
        normalizeFailed nums n = nums) ∧
    parse_bulk_index_map ⟨some ["A-1".data], some [some 3]⟩ 3 = [(0, "A-1".data)] :=
  ⟨normalizeFailed_of_one_based, normalizeFailed_of_zero_based, by decide⟩

/-- Witness for C2 at a concrete input: failure list `[3]` with request
count 3 is treated as 1-based. -/
theorem C2_normalization_all_or_nothing_witness :
    normalizeFailed [3] 3 = List.map (fun m => m - 1) [3] :=
  C2_normalization_all_or_nothing.1 [3] 3 ⟨3, by decide, by decide⟩

/-- C9: a missing or null `issues` or `errors` field is read as the empty
list, and reconciling the empty response yields the empty mapping for
every request count. -/
theorem C9_null_fields_tolerated :
    (∀ (n : Nat) (errs : Option (List (Option Int))),
        parse_bulk_index_map ⟨none, errs⟩ n = parse_bulk_index_map ⟨some [], errs⟩ n) ∧
    (∀ (n : Nat) (iss : Option (List (List Char))),
        parse_bulk_index_map ⟨iss, none⟩ n = parse_bulk_index_map ⟨iss, some []⟩ n) ∧
    (∀ n : Nat, parse_bulk_index_map ⟨none, none⟩ n = []) := by
  refine ⟨fun n errs => rfl, fun n iss => rfl, fun n => ?_⟩
  unfold parse_bulk_index_map
  simp

/-! ### Trailing newlines (C8) -/

lemma dropWhile_nl_replicate (k : Nat) (t : List Char) :
    List.dropWhile (fun c => c = '\n') (List.replicate k '\n' ++ t) =
      List.dropWhile (fun c => c = '\n') t := by
  induction k with
  | zero => simp
  | succ k ih => simp [List.replicate_succ, List.dropWhile_cons, ih]

lemma rstripNl_append_newlines (s : List Char) (k : Nat) :
    rstripNl (s ++ List.replicate k '\n') = rstripNl s := by
  unfold rstripNl
  rw [List.reverse_append, List.reverse_replicate, dropWhile_nl_replicate]

/-- C8: appending any number of trailing newline characters never changes
the compiled document — `adf_from_plain` strips them before any other
processing. -/
theorem C8_trailing_newlines_irrelevant :
    ∀ (s : List Char) (k : Nat),
      adf_from_plain (s ++ List.replicate k '\n') = adf_from_plain s := by
  intro s k
  unfold adf_from_plain
  rw [rstripNl_append_newlines]

/-! ### The 50-row cap (C1)

The cap at line 396 is tested on `rows`, the list produced by the
all-fields-empty filter alone — before the field-build loop drops the
rows lacking a summary.  So it is the non-empty-row count, not the
kept-row count of claim C1, that decides rejection. -/

/-- C1 (counterexample): 51 rows whose only non-empty field is `labels`
have kept-row count 0 ≤ 50, yet the batch is rejected by the cap — the
claim's "a batch whose kept-row count is at most 50 is not rejected by
the cap" is false on the code. -/
theorem C1_counterexample :
    jira_bulk_create cfg0 rows51 "Test".data = .overCap ∧
      keptRowCount rows51 = 0 := by
  exact ⟨by decide, by decide⟩

/-- C1 (amended): `jira_bulk_create` rejects the batch through the cap
exactly when the issue type is valid and the count of rows surviving the
all-fields-empty filter — before the empty-summary field-build drop —
is non-zero and exceeds 50. -/
theorem C1_cap_on_nonempty_rows :
    ∀ (cfg : Config) (payload : List Row) (issue_type : List Char),
      jira_bulk_create cfg payload issue_type = .overCap ↔
        ((issue_type = "Test".data ∨ issue_type = "Bug".data) ∧
          payload.filter rowNonEmpty ≠ [] ∧
          50 < (payload.filter rowNonEmpty).length) := by
  intro cfg payload it
  unfold jira_bulk_create
  by_cases h1 : it = "Test".data ∨ it = "Bug".data
  · by_cases h2 : (payload.filter rowNonEmpty).isEmpty
    · simp [h1, h2, List.isEmpty_iff.mp h2]
    · by_cases h3 : 50 < (payload.filter rowNonEmpty).length
      · simp only [List.isEmpty_iff] at h2
        refine iff_of_true ?_ ⟨h1, h2, h3⟩
        simp [h1, h3, List.isEmpty_iff, h2]
      · cases hb : (buildUpdates cfg it (payload.filter rowNonEmpty)).1.isEmpty <;>
          simp [h1, h2, h3, hb]
  · simp [h1]

/-! ### Link fan-out independence (C7) -/

lemma create_issue_link_proj (send : List Char → List Char → HttpResp)
    (lt fk tk : List Char) :
    (create_issue_link send lt fk tk).from_key = fk ∧
      (create_issue_link send lt fk tk).to_key = tk := by
  unfold create_issue_link
  by_cases h : 400 ≤ (send fk tk).status <;> simp [h]

lemma linkFanoutAux_calls (send send' : List Char → List Char → HttpResp)
    (lt : List Char) (m : List (Nat × List Char)) :
    ∀ (rows : List Row) (idx : Nat),
      (linkFanoutAux send lt m idx rows).map (fun r => (r.from_key, r.to_key)) =
        (linkFanoutAux send' lt m idx rows).map (fun r => (r.from_key, r.to_key)) := by
  intro rows
  induction rows with
  | nil => intro idx; rfl
  | cons row rest ih =>
      intro idx
      unfold linkFanoutAux
      rw [List.map_append, List.map_append, ih]
      congr 1
      cases List.lookup idx m with
      | none => rfl
      | some key =>
          by_cases hk : key.isEmpty
          · simp [hk]
          · simp only [hk, if_false, Bool.false_eq_true, List.map_map]
            apply List.map_congr_left
            intro t _
            simp [Function.comp, (create_issue_link_proj send lt key t).1,
              (create_issue_link_proj send lt key t).2,
              (create_issue_link_proj send' lt key t).1,
              (create_issue_link_proj send' lt key t).2]

/-- C7: a link call answered with status ≥ 400 returns a structured
failure result (it never raises), and the sequence of (source, target)
link calls the fan-out performs is the same whatever the outcomes of the
individual calls — one failing link aborts neither the remaining targets
of its row nor the later rows. -/
theorem C7_link_failures_independent :
    (∀ (send : List Char → List Char → HttpResp) (lt fk tk : List Char),
        400 ≤ (send fk tk).status →
          create_issue_link send lt fk tk =
            { ok := false, status := (send fk tk).status,
              error := some (send fk tk).text,
              from_key := fk, to_key := tk, link_type := lt }) ∧
    (∀ (send send' : List Char → List Char → HttpResp) (lt : List Char)
        (kept : List Row) (idx_to_key : List (Nat × List Char)),
        (linkFanout send lt kept idx_to_key).map (fun r => (r.from_key, r.to_key)) =
          (linkFanout send' lt kept idx_to_key).map (fun r => (r.from_key, r.to_key))) := by
  constructor
  · intro send lt fk tk h
    unfold create_issue_link
    simp [h]
  · intro send send' lt kept m
    exact linkFanoutAux_calls send send' lt m kept 0

/-- Witness for C7 at a concrete input: a sender that always answers 500
yields the recorded structured failure. -/
theorem C7_link_failures_independent_witness :
    create_issue_link (fun _ _ => ⟨500, "boom".data⟩) "Relates".data "A-1".data "B-2".data =
      { ok := false,
        status := ((fun _ _ => (⟨500, "boom".data⟩ : HttpResp)) "A-1".data "B-2".data).status,
        error := some ((fun _ _ => (⟨500, "boom".data⟩ : HttpResp)) "A-1".data "B-2".data).text,
        from_key := "A-1".data, to_key := "B-2".data, link_type := "Relates".data } :=
  C7_link_failures_independent.1 (fun _ _ => ⟨500, "boom".data⟩)
    "Relates".data "A-1".data "B-2".data (by decide)

/-! ### The inline-bold scan (C5, C10) -/

lemma findContent_sound :
    ∀ (s p r : List Char), findContent s = some (p, r) → s = p ++ '*' :: r := by
  intro s
  induction s with
  | nil => simp [findContent]
  | cons c rest ih =>
      rcases rest with _ | ⟨d, rest2⟩
      · simp [findContent]
      · intro p r h
        unfold findContent at h
        by_cases hc : c = '\n'
        · simp [hc] at h
        · rw [if_neg hc] at h
          by_cases hd : d = '*'
          · rw [if_pos hd] at h
            simp only [Option.some.injEq, Prod.mk.injEq] at h
            obtain ⟨hp, hr⟩ := h
            subst hp; subst hr; subst hd
            rfl
          · rw [if_neg hd] at h
            cases hfc : findContent (d :: rest2) with
            | none => rw [hfc] at h; simp at h
            | some pr =>
                obtain ⟨p2, r2⟩ := pr
                rw [hfc] at h
                simp only [Option.some.injEq, Prod.mk.injEq] at h
                rw [← h.1, ← h.2]
                have := ih p2 r2 hfc
                rw [List.cons_append, ← this]

lemma findContent_ne_nil :
    ∀ (s p r : List Char), findContent s = some (p, r) → p ≠ [] := by
  intro s
  induction s with
  | nil => simp [findContent]
  | cons c rest ih =>
      rcases rest with _ | ⟨d, rest2⟩
      · simp [findContent]
      · intro p r h
        unfold findContent at h
        by_cases hc : c = '\n'
        · simp [hc] at h
        · rw [if_neg hc] at h
          by_cases hd : d = '*'
          · rw [if_pos hd] at h
            simp only [Option.some.injEq, Prod.mk.injEq] at h
            obtain ⟨hp, _⟩ := h
            subst hp; simp
          · rw [if_neg hd] at h
            cases hfc : findContent (d :: rest2) with
            | none => rw [hfc] at h; simp at h
            | some pr =>
                obtain ⟨p2, r2⟩ := pr
                rw [hfc] at h
                simp only [Option.some.injEq, Prod.mk.injEq] at h
                obtain ⟨hp, _⟩ := h
                subst hp; simp

lemma findContent_length (s p r : List Char) (h : findContent s = some (p, r)) :
    r.length < s.length := by
  rw [findContent_sound s p r h]
  simp [List.length_append]
  omega

lemma findContent_eq_none_of_not_mem (s : List Char) (h : '*' ∉ s) :
    findContent s = none := by
  cases hfc : findContent s with
  | none => rfl
  | some pr =>
      obtain ⟨p, r⟩ := pr
      rw [findContent_sound s p r hfc] at h
      exact absurd (by simp) h

lemma plainCons_join (c : Char) (l : List Inline) :
    ((plainCons c l).map renderInline).flatten = c :: (l.map renderInline).flatten := by
  rcases l with _ | ⟨⟨t, st⟩, rest⟩
  · rfl
  · cases st <;> rfl

lemma plainCons_text_ne_nil {r : Inline} (c : Char) (l : List Inline)
    (h : r ∈ plainCons c l) (hl : ∀ x ∈ l, x.text ≠ []) : r.text ≠ [] := by
  rcases l with _ | ⟨⟨t, st⟩, rest⟩
  · rcases List.mem_singleton.mp h with rfl
    simp
  · cases st
    · rcases List.mem_cons.mp h with rfl | hmem
      · simp
      · exact hl _ (List.mem_cons_of_mem _ hmem)
    · rcases List.mem_cons.mp h with rfl | hmem
      · simp
      · exact hl _ hmem

lemma adfInlineGo_text_ne_nil :
    ∀ (fuel : Nat) (s : List Char), ∀ r ∈ adfInlineGo fuel s, r.text ≠ [] := by
  intro fuel
  induction fuel with
  | zero => intro s r h; simp [adfInlineGo] at h
  | succ fuel ih =>
      intro s r h
      rcases s with _ | ⟨c, rest⟩
      · simp [adfInlineGo] at h
      · unfold adfInlineGo at h
        by_cases hc : c = '*'
        · rw [if_pos hc] at h
          cases hfc : findContent rest with
          | some pr =>
              obtain ⟨p, r2⟩ := pr
              rw [hfc] at h
              rcases List.mem_cons.mp h with rfl | hmem
              · exact findContent_ne_nil rest p r2 hfc
              · exact ih r2 r hmem
          | none =>
              rw [hfc] at h
              exact plainCons_text_ne_nil c _ h (ih rest)
        · rw [if_neg hc] at h
          exact plainCons_text_ne_nil c _ h (ih rest)

lemma adf_inline_eq_go (s : List Char) : adf_inline s = adfInlineGo s.length s := by
  unfold adf_inline
  apply List.filter_eq_self.mpr
  intro a ha
  have := adfInlineGo_text_ne_nil s.length s a ha
  simp only [decide_eq_true_eq]
  exact fun hempty => this (List.isEmpty_iff.mp hempty)

lemma adfInlineGo_join :
    ∀ (fuel : Nat) (s : List Char), s.length ≤ fuel →
      ((adfInlineGo fuel s).map renderInline).flatten = s := by
  intro fuel
  induction fuel with
  | zero =>
      intro s h
      rw [Nat.le_zero] at h
      rw [List.length_eq_zero] at h
      subst h; rfl
  | succ fuel ih =>
      intro s h
      rcases s with _ | ⟨c, rest⟩
      · rfl
      · have hrest : rest.length ≤ fuel := by
          simp only [List.length_cons] at h; omega
        unfold adfInlineGo
        by_cases hc : c = '*'
        · rw [if_pos hc]
          cases hfc : findContent rest with
          | some pr =>
              obtain ⟨p, r2⟩ := pr
              have hlen : r2.length ≤ fuel := by
                have := findContent_length rest p r2 hfc
                omega
              have hsplit := findContent_sound rest p r2 hfc
              subst hc
              rw [List.map_cons, List.flatten_cons, ih r2 hlen, hsplit]
              simp [renderInline, List.append_assoc]
          | none =>
              rw [plainCons_join, ih rest hrest]
        · rw [if_neg hc, plainCons_join, ih rest hrest]

lemma adfInlineGo_no_pair :
    ∀ (fuel : Nat) (s : List Char), s.length ≤ fuel → s.count '*' ≤ 1 →
      adfInlineGo fuel s = if s.isEmpty then [] else [⟨s, false⟩] := by
  intro fuel
  induction fuel with
  | zero =>
      intro s h _
      rw [Nat.le_zero] at h
      rw [List.length_eq_zero] at h
      subst h; rfl
  | succ fuel ih =>
      intro s h hcount
      rcases s with _ | ⟨c, rest⟩
      · rfl
      · have hrest : rest.length ≤ fuel := by
          simp only [List.length_cons] at h; omega
        unfold adfInlineGo
        by_cases hc : c = '*'
        · have hzero : rest.count '*' = 0 := by
            subst hc
            simp [List.count_cons] at hcount
            omega
          have hnone := findContent_eq_none_of_not_mem rest (List.count_eq_zero.mp hzero)
          rw [if_pos hc, hnone, ih rest hrest (by omega)]
          rcases rest with _ | ⟨d, rest2⟩ <;> rfl
        · have hcr : rest.count '*' ≤ 1 := by
            simp [List.count_cons, hc] at hcount ⊢
            omega
          rw [if_neg hc, ih rest hrest hcr]
          rcases rest with _ | ⟨d, rest2⟩ <;> rfl

/-- C5: joining the runs produced by `_adf_inline` — a strong run
rendered with its `*` delimiters restored, a plain run as is — recovers
the input line exactly, so matched pairs become single strong runs and
everything outside matched pairs stays literal plain text; a line with at
most one `*` (an unmatched lone delimiter) is one plain literal run; and
the spec's example line `"*bold* and plain"` compiles to exactly the two
runs `"bold"` (strong) and `" and plain"` (unmarked). -/
theorem C5_inline_bold :
    (∀ s : List Char, ((adf_inline s).map renderInline).flatten = s) ∧
    (∀ s : List Char, s.count '*' ≤ 1 →
        adf_inline s = if s.isEmpty then [] else [⟨s, false⟩]) ∧
    adf_inline "*bold* and plain".data =
      [⟨"bold".data, true⟩, ⟨" and plain".data, false⟩] ∧
    adf_from_plain "*bold* and plain".data =
      ⟨[Block.paragraph [⟨"bold".data, true⟩, ⟨" and plain".data, false⟩]]⟩ := by
  refine ⟨?_, ?_, by decide, by decide⟩
  · intro s
    rw [adf_inline_eq_go]
    exact adfInlineGo_join s.length s le_rfl
  · intro s hcount
    rw [adf_inline_eq_go]
    exact adfInlineGo_no_pair s.length s le_rfl hcount

/-- Witness for C5 at a concrete input: a lone `*` stays literal. -/
theorem C5_inline_bold_witness :
    adf_inline "a*b".data =
      if ("a*b".data).isEmpty then [] else [⟨"a*b".data, false⟩] :=
  C5_inline_bold.2.1 "a*b".data (by decide)

/-- C10: every run carrying the strong mark holds at least one character
— two adjacent asterisks never delimit a bold span — and the line `"**"`
compiles to a single unmarked run `"**"`. -/
theorem C10_no_empty_bold :
    (∀ s : List Char, ∀ r ∈ adf_inline s, r.strong = true → r.text ≠ []) ∧
    adf_from_plain "**".data = ⟨[Block.paragraph [⟨"**".data, false⟩]]⟩ := by
  refine ⟨?_, by decide⟩
  intro s r hr _
  rw [adf_inline_eq_go] at hr
  exact adfInlineGo_text_ne_nil s.length s r hr

/-- Witness for C10 at a concrete input. -/
theorem C10_no_empty_bold_witness :
    (⟨"a".data, true⟩ : Inline).text ≠ [] :=
  C10_no_empty_bold.1 "*a*".data ⟨"a".data, true⟩ (by decide) rfl

/-! ### List-node invariant (C6) -/

lemma listOk_flush :
    ∀ (st : CompState), (∀ b ∈ st.content, listOk b = true) →
      ∀ b ∈ (flush_list st).content, listOk b = true := by
  rintro ⟨lt, items, content⟩ h b hb
  rcases lt with _ | k
  · exact h b hb
  · rcases items with _ | ⟨i0, rest⟩
    · exact h b hb
    · cases k <;>
      · rcases List.mem_append.mp hb with hb2 | hb2
        · exact h b hb2
        · rcases List.mem_singleton.mp hb2 with rfl
          simp [listOk]

lemma listOk_step :
    ∀ (st : CompState) (raw : List Char), (∀ b ∈ st.content, listOk b = true) →
      ∀ b ∈ (adfStep st raw).content, listOk b = true := by
  intro st raw h b hb
  simp only [adfStep] at hb
  split at hb
  · rcases List.mem_append.mp hb with hb2 | hb2
    · exact listOk_flush st h b hb2
    · rcases List.mem_singleton.mp hb2 with rfl; rfl
  · split at hb
    · split at hb
      · exact h b hb
      · exact listOk_flush st h b hb
    · split at hb
      · split at hb
        · exact h b hb
        · exact listOk_flush st h b hb
      · rcases List.mem_append.mp hb with hb2 | hb2
        · exact listOk_flush st h b hb2
        · rcases List.mem_singleton.mp hb2 with rfl; rfl

lemma listOk_foldl :
    ∀ (lines : List (List Char)) (st : CompState),
      (∀ b ∈ st.content, listOk b = true) →
      ∀ b ∈ (lines.foldl adfStep st).content, listOk b = true := by
  intro lines
  induction lines with
  | nil => intro st h; exact h
  | cons l rest ih => intro st h; exact ih _ (listOk_step st l h)

/-- C6: every bullet or ordered list node in any compiled document holds
at least one item, and a blank source line appends an empty paragraph
(after flushing any open run) — never an empty list. -/
theorem C6_lists_nonempty :
    (∀ (s : List Char) (b : Block), b ∈ (adf_from_plain s).content → listOk b = true) ∧
    (∀ (st : CompState) (raw : List Char), (pyStrip (pyRStrip raw)).isEmpty = true →
        (adfStep st raw).content = (flush_list st).content ++ [Block.paragraph []]) := by
  constructor
  · intro s b hb
    simp only [adf_from_plain] at hb
    split at hb
    · simp at hb
    · exact listOk_flush _ (listOk_foldl _ _ (fun x hx => by simp at hx)) b hb
  · intro st raw h
    simp [adfStep, h]

/-- Witness for C6 at a concrete input: the single bullet list compiled
from `"- a"` satisfies the invariant. -/
theorem C6_lists_nonempty_witness :
    listOk (Block.bulletList [[⟨"a".data, false⟩]]) = true :=
  C6_lists_nonempty.1 "- a".data (Block.bulletList [[⟨"a".data, false⟩]]) (by decide)

/-! ### Line classification and list-run accumulation (C4) -/

lemma adfStep_bullet (st : CompState) (raw : List Char)
    (h1 : (pyStrip (pyRStrip raw)).isEmpty = false)
    (h2 : (pyRStrip raw).take 2 = ['-', ' '])
    (h3 : st.listType = none ∨ st.listType = some .bullet) :
    adfStep st raw =
      ⟨some .bullet, st.items ++ [pyStrip ((pyRStrip raw).drop 2)], st.content⟩ := by
  obtain ⟨lt, items, content⟩ := st
  simp only [adfStep, h1, h2, Bool.false_eq_true, if_false, if_pos h3]
  simp

lemma foldl_bullet_accum :
    ∀ (lines : List (List Char)) (st : CompState),
      (st.listType = none ∨ st.listType = some .bullet) →
      (∀ raw ∈ lines, (pyStrip (pyRStrip raw)).isEmpty = false ∧
          (pyRStrip raw).take 2 = ['-', ' ']) →
      lines.foldl adfStep st =
        ⟨if lines.isEmpty then st.listType else some .bullet,
         st.items ++ lines.map (fun raw => pyStrip ((pyRStrip raw).drop 2)),
         st.content⟩ := by
  intro lines
  induction lines with
  | nil =>
      intro st h3 _
      obtain ⟨lt, items, content⟩ := st
      simp
  | cons raw rest ih =>
      intro st h3 hall
      have hr := hall raw (List.mem_cons_self _ _)
      rw [List.foldl_cons, adfStep_bullet st raw hr.1 hr.2 h3,
        ih _ (Or.inr rfl) (fun x hx => hall x (List.mem_cons_of_mem _ hx))]
      simp [List.append_assoc]

lemma adfStep_blank (st : CompState) (raw : List Char)
    (h1 : (pyStrip (pyRStrip raw)).isEmpty = true) :
    adfStep st raw =
      { flush_list st with
        content := (flush_list st).content ++ [Block.paragraph []] } := by
  simp [adfStep, h1]

lemma adfStep_bullet_switch (st : CompState) (raw : List Char)
    (h1 : (pyStrip (pyRStrip raw)).isEmpty = false)
    (h2 : (pyRStrip raw).take 2 = ['-', ' '])
    (h3 : st.listType = some .ordered) :
    adfStep st raw =
      { flush_list st with
          listType := some .bullet
          items := (flush_list st).items ++ [pyStrip ((pyRStrip raw).drop 2)] } := by
  have hor : ¬ (st.listType = none ∨ st.listType = some ListKind.bullet) := by
    simp [h3]
  simp only [adfStep, h1, h2, Bool.false_eq_true, if_false, if_neg hor]
  simp

lemma adfStep_ordered (st : CompState) (raw : List Char)
    (h1 : (pyStrip (pyRStrip raw)).isEmpty = false)
    (h2 : (pyRStrip raw).take 2 = ['#', ' '])
    (h3 : st.listType = none ∨ st.listType = some .ordered) :
    adfStep st raw =
      ⟨some .ordered, st.items ++ [pyStrip ((pyRStrip raw).drop 2)], st.content⟩ := by
  obtain ⟨lt, items, content⟩ := st
  simp only [adfStep, h1, h2, Bool.false_eq_true, if_false, if_pos h3]
  simp

lemma foldl_ordered_accum :
    ∀ (lines : List (List Char)) (st : CompState),
      (st.listType = none ∨ st.listType = some .ordered) →
      (∀ raw ∈ lines, (pyStrip (pyRStrip raw)).isEmpty = false ∧
          (pyRStrip raw).take 2 = ['#', ' ']) →
      lines.foldl adfStep st =
        ⟨if lines.isEmpty then st.listType else some .ordered,
         st.items ++ lines.map (fun raw => pyStrip ((pyRStrip raw).drop 2)),
         st.content⟩ := by
  intro lines
  induction lines with
  | nil =>
      intro st h3 _
      obtain ⟨lt, items, content⟩ := st
      simp
  | cons raw rest ih =>
      intro st h3 hall
      have hr := hall raw (List.mem_cons_self _ _)
      rw [List.foldl_cons, adfStep_ordered st raw hr.1 hr.2 h3,
        ih _ (Or.inr rfl) (fun x hx => hall x (List.mem_cons_of_mem _ hx))]
      simp [List.append_assoc]

lemma adfStep_ordered_switch (st : CompState) (raw : List Char)
    (h1 : (pyStrip (pyRStrip raw)).isEmpty = false)
    (h2 : (pyRStrip raw).take 2 = ['#', ' '])
    (h3 : st.listType = some .bullet) :
    adfStep st raw =
      { flush_list st with
          listType := some .ordered
          items := (flush_list st).items ++ [pyStrip ((pyRStrip raw).drop 2)] } := by
  have hor : ¬ (st.listType = none ∨ st.listType = some ListKind.ordered) := by
    simp [h3]
  simp only [adfStep, h1, h2, Bool.false_eq_true, if_false, if_neg hor]
  simp

lemma adfStep_paragraph (st : CompState) (raw : List Char)
    (h1 : (pyStrip (pyRStrip raw)).isEmpty = false)
    (h2 : (pyRStrip raw).take 2 ≠ ['-', ' '])
    (h3 : (pyRStrip raw).take 2 ≠ ['#', ' ']) :
    adfStep st raw =
      { flush_list st with
        content := (flush_list st).content ++
          [Block.paragraph (adf_inline (pyRStrip raw))] } := by
  simp [adfStep, h1, h2, h3]

/-- C4: the line loop classifies every trailing-whitespace-stripped line
in the claim's priority order, for every state: a blank line flushes any
open run and appends an empty paragraph; a `"- "` line joins the open
bullet run (opening one when no run is open) and, when an ordered run is
open, flushes it first and starts a fresh bullet run; symmetrically for
`"# "` and ordered runs — consecutive same-marker lines accumulate into
one run without emitting anything; any other line flushes any open run
and appends a paragraph.  Concretely, `compile("- a\n- b\n# x\np")`
shows the kind-switch flush and the non-matching-line flush, and the
spec's example `compile("- a\n- b\n\n# x\n# y")` yields exactly a
bulletList with 2 items, an empty paragraph and an orderedList with 2
items — blank-line flush and end-of-input flush. -/
theorem C4_line_classification :
    (∀ (st : CompState) (raw : List Char),
        (pyStrip (pyRStrip raw)).isEmpty = true →
        adfStep st raw =
          { flush_list st with
            content := (flush_list st).content ++ [Block.paragraph []] }) ∧
    (∀ (lines : List (List Char)) (st : CompState),
        (st.listType = none ∨ st.listType = some .bullet) →
        (∀ raw ∈ lines, (pyStrip (pyRStrip raw)).isEmpty = false ∧
            (pyRStrip raw).take 2 = ['-', ' ']) →
        lines.foldl adfStep st =
          ⟨if lines.isEmpty then st.listType else some .bullet,
           st.items ++ lines.map (fun raw => pyStrip ((pyRStrip raw).drop 2)),
           st.content⟩) ∧
    (∀ (st : CompState) (raw : List Char),
        (pyStrip (pyRStrip raw)).isEmpty = false →
        (pyRStrip raw).take 2 = ['-', ' '] →
        st.listType = some .ordered →
        adfStep st raw =
          { flush_list st with
              listType := some .bullet
              items := (flush_list st).items ++ [pyStrip ((pyRStrip raw).drop 2)] }) ∧
    (∀ (lines : List (List Char)) (st : CompState),
        (st.listType = none ∨ st.listType = some .ordered) →
        (∀ raw ∈ lines, (pyStrip (pyRStrip raw)).isEmpty = false ∧
            (pyRStrip raw).take 2 = ['#', ' ']) →
        lines.foldl adfStep st =
          ⟨if lines.isEmpty then st.listType else some .ordered,
           st.items ++ lines.map (fun raw => pyStrip ((pyRStrip raw).drop 2)),
           st.content⟩) ∧
    (∀ (st : CompState) (raw : List Char),
        (pyStrip (pyRStrip raw)).isEmpty = false →
        (pyRStrip raw).take 2 = ['#', ' '] →
        st.listType = some .bullet →
        adfStep st raw =
          { flush_list st with
              listType := some .ordered
              items := (flush_list st).items ++ [pyStrip ((pyRStrip raw).drop 2)] }) ∧
    (∀ (st : CompState) (raw : List Char),
        (pyStrip (pyRStrip raw)).isEmpty = false →
        (pyRStrip raw).take 2 ≠ ['-', ' '] →
        (pyRStrip raw).take 2 ≠ ['#', ' '] →
        adfStep st raw =
          { flush_list st with
            content := (flush_list st).content ++
              [Block.paragraph (adf_inline (pyRStrip raw))] }) ∧
    adf_from_plain "- a\n- b\n# x\np".data =
      ⟨[Block.bulletList [[⟨"a".data, false⟩], [⟨"b".data, false⟩]],
        Block.orderedList [[⟨"x".data, false⟩]],
        Block.paragraph [⟨"p".data, false⟩]]⟩ ∧
    adf_from_plain "- a\n- b\n\n# x\n# y".data =
      ⟨[Block.bulletList [[⟨"a".data, false⟩], [⟨"b".data, false⟩]],
        Block.paragraph [],
        Block.orderedList [[⟨"x".data, false⟩], [⟨"y".data, false⟩]]]⟩ :=
  ⟨adfStep_blank, foldl_bullet_accum, adfStep_bullet_switch,
   foldl_ordered_accum, adfStep_ordered_switch, adfStep_paragraph,
   by decide, by decide⟩

/-- Witness for C4 at a concrete input: a plain line hitting an open
ordered run flushes it and appends a paragraph. -/
theorem C4_line_classification_witness :
    adfStep ⟨some .ordered, ["x".data], []⟩ "p".data =
      { flush_list ⟨some .ordered, ["x".data], []⟩ with
        content := (flush_list ⟨some .ordered, ["x".data], []⟩).content ++
          [Block.paragraph (adf_inline (pyRStrip "p".data))] } :=
  C4_line_classification.2.2.2.2.2.1 ⟨some .ordered, ["x".data], []⟩ "p".data
    (by decide) (by decide) (by decide)

/-! ### The reconciler as the spec's zip (C3) -/

lemma specSurvivors_eq (n : Nat) (failed : List Int) :
    specSurvivors n failed = successIndices n failed := by
  unfold specSurvivors successIndices
  apply List.eq_of_perm_of_sorted (r := (· ≤ ·))
  · refine (Finset.sort_perm_toList _ _).trans ?_
    have hval : ((Finset.range n).filter (fun i : Nat => ((i : Int) ∉ failed))).val =
        (((List.range n).filter (fun i : Nat => decide (¬ (i : Int) ∈ failed)) :
          List Nat) : Multiset Nat) := by
      rw [Finset.filter_val, Finset.range_val, ← Multiset.coe_range, Multiset.filter_coe]
    have hcoe := Multiset.coe_toList
      ((Finset.range n).filter (fun i : Nat => ((i : Int) ∉ failed))).val
    rw [hval] at hcoe
    exact Multiset.coe_eq_coe.mp hcoe
  · exact Finset.sort_sorted _ _
  · exact (List.sorted_le_range n).filter _

lemma successIndices_drop_out_of_range (n : Nat) (failed : List Int) :
    successIndices n failed =
      successIndices n
        (failed.filter (fun m => decide (0 ≤ m) && decide (m < (n : Int)))) := by
  unfold successIndices
  apply List.filter_congr
  intro i hi
  have hin : i < n := List.mem_range.mp hi
  have h0 : (0 : Int) ≤ (i : Int) := Int.ofNat_nonneg i
  have hlt : ((i : Int)) < (n : Int) := by exact_mod_cast hin
  simp only [decide_eq_decide]
  constructor
  · intro hno hmem
    exact hno (List.mem_filter.mp hmem).1
  · intro hno hmem
    exact hno (List.mem_filter.mpr ⟨hmem, by simp [h0, hlt]⟩)

/-- C3: the reconciler's result is exactly the spec's construction — the
ordered set `{0,...,n-1}` minus the normalized failure positions, zipped
positionally against the response's created items up to the shorter
sequence, keeping only pairs with a non-empty key; request count 0 gives
the empty mapping, and normalized failure positions outside
`{0,...,n-1}` have no effect on the surviving positions. -/
theorem C3_reconcile_zip :
    (∀ (resp : BulkResp) (n : Nat), parse_bulk_index_map resp n = reconcileSpec resp n) ∧
    (∀ resp : BulkResp, parse_bulk_index_map resp 0 = []) ∧
    (∀ (n : Nat) (failed : List Int),
        successIndices n failed =
          successIndices n
            (failed.filter (fun m => decide (0 ≤ m) && decide (m < (n : Int))))) := by
  refine ⟨?_, ?_, successIndices_drop_out_of_range⟩
  · intro resp n
    simp only [parse_bulk_index_map, reconcileSpec, specSurvivors_eq]
  · intro resp
    unfold parse_bulk_index_map
    simp [successIndices]

end JiraCsv
